import Mathlib

/-!
Verification of the archive-layout core of the s3tar repository.

The Go source (src/utils.go and src/unnamed/part_000, package s3tar) is
shallowly embedded below.  Machine integers (`int64`) are modelled as `Int`;
overflow is out of scope for the verified claims, whose inputs are sizes and
buffer lengths far below 2^63.  Byte buffers (`bytes.Buffer`, `[]byte`) are
modelled as `List Char`, strings as `String`, and fallible or panicking code
returns `Option`.
-/

set_option maxRecDepth 40000
set_option linter.unusedVariables false

namespace S3Tar

/-- Modelled from the spec: the constant `blockSize` is defined in a file of
this repository that is not under src/.  The spec's glossary fixes it:
"Block: fixed 512-byte unit; all tar headers and the archive layout are
aligned to block boundaries." -/
def blockSize : Int := 512

/-- src/utils.go:178-180.  Go: `return -offset & (blockSize - 1)`.
On a two's-complement int64, bitwise AND with the mask 511 keeps the low
nine bits of `-offset` as a non-negative value, which is exactly
`(-offset) mod 512` (Euclidean remainder, here Lean's `%` on `Int`). -/
def findPadding (offset : Int) : Int :=
  (-offset) % blockSize

/-! ### Decimal formatting (Go `fmt.Sprintf "%d"`)

`toDecimalAux fuel n` produces the decimal digits of `n` (most significant
first) given `fuel ≥ n`; `natRepr`/`intRepr` are the usual decimal
rendering, with `-` prefixed for negative values, exactly as `%d` prints. -/

def toDecimalAux : Nat → Nat → List Char
  | 0, _ => []
  | fuel + 1, n =>
    if n = 0 then []
    else toDecimalAux fuel (n / 10) ++ [Nat.digitChar (n % 10)]

def natRepr (n : Nat) : List Char :=
  if n = 0 then ['0'] else toDecimalAux n n

def intRepr (i : Int) : List Char :=
  if i < 0 then '-' :: natRepr (-i).toNat else natRepr i.toNat

/-! ### CSV serialization (Go `encoding/csv` writer, default configuration)

The manifest rows are written by `csv.NewWriter(&buf); cw.WriteAll(...)`.
The Go writer separates fields with `,`, ends each record with `"\n"`
(`UseCRLF` is false), and quotes a field exactly when it is non-empty and
either equals `\.`, contains a comma, a double quote, `\r` or `\n`, or
starts with white space (Go checks `unicode.IsSpace` of the first rune;
`Char.isWhitespace` covers the ASCII cases, which is where all claims
live).  Inside a quoted field a `"` is doubled. -/

def badCsvChar (c : Char) : Bool :=
  c = ',' || c = '"' || c = '\r' || c = '\n'

def fieldNeedsQuotes (f : List Char) : Bool :=
  if f = [] then false
  else if f = ['\\', '.'] then true
  else if f.any badCsvChar then true
  else match f with
    | c :: _ => c.isWhitespace
    | [] => false

def quoteField (f : List Char) : List Char :=
  '"' :: (f.flatMap fun c => if c = '"' then ['"', '"'] else [c]) ++ ['"']

def encodeField (f : List Char) : List Char :=
  if fieldNeedsQuotes f then quoteField f else f

def csvLine (fields : List (List Char)) : List Char :=
  List.intercalate [','] (fields.map encodeField) ++ ['\n']

def csvWriteAll (records : List (List (List Char))) : List Char :=
  (records.map csvLine).flatten

/-! ### The data model

`S3Obj` (src/utils.go:149-155) carries more fields in Go; the layout code
uses only the key, the size and the ETag, so the embedding keeps those.
`createCSVManifest` walks two parallel slices `headers` and `objectList`
indexed by `i < len(objectList)` (Go would panic if `headers` were
shorter); the embedding zips them, and the theorems carry the equal-length
hypothesis under which the zip is exactly the Go iteration. -/

structure S3Obj where
  key : String
  size : Int
  etag : String
deriving DecidableEq

/-- src/unnamed/part_000:59-70, the loop body of `createCSVManifest`:
`currLocation += headers[i].Size`, record
`(key, "%d" currLocation, "%d" size, etag)`, `currLocation += size`. -/
def csvRows : Int → List (S3Obj × S3Obj) → List (List (List Char))
  | _, [] => []
  | loc, (h, o) :: rest =>
    let loc1 := loc + h.size
    [o.key.data, intRepr loc1, intRepr o.size, o.etag.data] ::
      csvRows (loc1 + o.size) rest

/-- src/unnamed/part_000:54-55: `currLocation = offset + 512;
currLocation = currLocation + findPadding(currLocation)`. -/
def csvStart (offset : Int) : Int :=
  offset + 512 + findPadding (offset + 512)

/-- src/unnamed/part_000:53-76. -/
def createCSVManifest (offset : Int) (headers objectList : List S3Obj) :
    List Char :=
  csvWriteAll (csvRows (csvStart offset) (headers.zip objectList))

/-- The recorded `absoluteOffset` column of each row of `csvRows`:
the Go loop records `currLocation` right after `currLocation +=
headers[i].Size`. -/
def csvOffsetsAux : Int → List (S3Obj × S3Obj) → List Int
  | _, [] => []
  | loc, (h, o) :: rest =>
    (loc + h.size) :: csvOffsetsAux (loc + h.size + o.size) rest

def csvOffsets (offset : Int) (headers objectList : List S3Obj) : List Int :=
  csvOffsetsAux (csvStart offset) (headers.zip objectList)

/-- The byte position at which each entry's header blob begins in the same
traversal: the value of `currLocation` just before the Go loop adds
`headers[i].Size`.  (The spec's archive layout, §3/§6: each member is its
header block followed by its data.) -/
def entryStartsAux : Int → List (S3Obj × S3Obj) → List Int
  | _, [] => []
  | loc, (h, o) :: rest => loc :: entryStartsAux (loc + h.size + o.size) rest

def entryStarts (offset : Int) (headers objectList : List S3Obj) : List Int :=
  entryStartsAux (csvStart offset) (headers.zip objectList)

/-- The final value of `currLocation` after the whole traversal. -/
def csvEndAux : Int → List (S3Obj × S3Obj) → Int
  | loc, [] => loc
  | loc, (h, o) :: rest => csvEndAux (loc + h.size + o.size) rest

def csvEnd (offset : Int) (headers objectList : List S3Obj) : Int :=
  csvEndAux (csvStart offset) (headers.zip objectList)

/-- src/unnamed/part_000:39-48, the fixed-point loop of `_buildManifest`:
re-serialize at seed `estimate`; let `l` be the new length and
`lp = l + findPadding l`; stop when `lp >= estimate`, else retry with
`estimate = lp`.  The recursion is well-founded because the loop only
continues when `lp < estimate` and `lp ≥ 0`. -/
def buildManifestLoop (headers objectList : List S3Obj) (estimate : Int) :
    List Char :=
  if ((createCSVManifest estimate headers objectList).length : Int) +
      findPadding ((createCSVManifest estimate headers objectList).length : Int) ≥
      estimate then
    createCSVManifest estimate headers objectList
  else
    buildManifestLoop headers objectList
      (((createCSVManifest estimate headers objectList).length : Int) +
        findPadding ((createCSVManifest estimate headers objectList).length : Int))
termination_by estimate.toNat
decreasing_by
  have hpad : 0 ≤ findPadding
        ((createCSVManifest estimate headers objectList).length : Int) ∧
      findPadding ((createCSVManifest estimate headers objectList).length : Int) ≤
        511 := by
    unfold findPadding blockSize; omega
  omega

/-- src/unnamed/part_000:33-51: seed the estimate with the length of a
trial serialization at offset 0, then run the loop. -/
def _buildManifest (headers objectList : List S3Obj) : List Char :=
  buildManifestLoop headers objectList
    ((createCSVManifest 0 headers objectList).length : Int)

/-- Worst-case length of one manifest row when the offset field takes at
most `d` characters; the other three fields are fixed by the entry. -/
def maxRowLen (o : S3Obj) (d : Nat) : Nat :=
  (encodeField o.key.data).length + d + (encodeField (intRepr o.size)).length +
    (encodeField o.etag.data).length + 4

/-- Maximum possible manifest size for a fixed entry list, given a bound
`d` on the number of characters of any serialized offset. -/
def maxManifestLen (objectList : List S3Obj) (d : Nat) : Nat :=
  (objectList.map fun o => maxRowLen o d).sum

/-! ### Facts about decimal rendering -/

theorem toDecimalAux_mem :
    ∀ (f n : Nat) (c : Char), c ∈ toDecimalAux f n →
      ∃ d, d < 10 ∧ c = Nat.digitChar d := by
  intro f
  induction f with
  | zero => intro n c hc; simp [toDecimalAux] at hc
  | succ f ih =>
    intro n c hc
    by_cases hn : n = 0
    · simp [toDecimalAux, hn] at hc
    · rw [show toDecimalAux (f + 1) n =
          toDecimalAux f (n / 10) ++ [Nat.digitChar (n % 10)] from by
        simp [toDecimalAux, hn]] at hc
      rcases List.mem_append.mp hc with hc | hc
      · exact ih _ _ hc
      · exact ⟨n % 10, Nat.mod_lt _ (by norm_num), by simpa using hc⟩

theorem toDecimalAux_ne_nil (f n : Nat) (h1 : 1 ≤ n) (h2 : n ≤ f) :
    toDecimalAux f n ≠ [] := by
  cases f with
  | zero => omega
  | succ f => simp [toDecimalAux, show n ≠ 0 by omega]

theorem natRepr_digits (n : Nat) :
    ∀ c ∈ natRepr n, ∃ d, d < 10 ∧ c = Nat.digitChar d := by
  intro c hc
  unfold natRepr at hc
  split at hc
  · exact ⟨0, by norm_num, by simpa using hc⟩
  · exact toDecimalAux_mem _ _ _ hc

theorem natRepr_ne_nil (n : Nat) : natRepr n ≠ [] := by
  unfold natRepr
  split
  · simp
  · exact toDecimalAux_ne_nil _ _ (by omega) le_rfl

/-- A non-empty field of decimal characters (digits, possibly a leading
minus sign) is written by the CSV writer without quotes. -/
theorem fieldNeedsQuotes_eq_false (l : List Char) (hne : l ≠ [])
    (hgood : ∀ c ∈ l, badCsvChar c = false ∧ c.isWhitespace = false ∧ c ≠ '\\') :
    fieldNeedsQuotes l = false := by
  have h2 : l ≠ ['\\', '.'] := by
    intro h
    have hmem : '\\' ∈ l := by rw [h]; simp
    exact absurd rfl (hgood _ hmem).2.2
  have h3 : l.any badCsvChar = false := by
    rw [List.any_eq_false]
    intro c hc
    simp [(hgood c hc).1]
  cases l with
  | nil => exact absurd rfl hne
  | cons c t =>
    have hw := (hgood c (by simp)).2.1
    simp [fieldNeedsQuotes, h2, h3, hw]

theorem digitChar_good :
    ∀ d, d < 10 → badCsvChar (Nat.digitChar d) = false ∧
      (Nat.digitChar d).isWhitespace = false ∧ Nat.digitChar d ≠ '\\' := by
  decide

theorem encodeField_natRepr (n : Nat) : encodeField (natRepr n) = natRepr n := by
  unfold encodeField
  rw [fieldNeedsQuotes_eq_false _ (natRepr_ne_nil n) ?h]
  case h =>
    intro c hc
    obtain ⟨d, hd, rfl⟩ := natRepr_digits n c hc
    exact digitChar_good d hd
  simp

theorem encodeField_intRepr (x : Int) : encodeField (intRepr x) = intRepr x := by
  unfold intRepr
  split
  · unfold encodeField
    rw [fieldNeedsQuotes_eq_false _ (by simp) ?h]
    case h =>
      intro c hc
      rcases List.mem_cons.mp hc with rfl | hc
      · refine ⟨by decide, by decide, by decide⟩
      · obtain ⟨d, hd, rfl⟩ := natRepr_digits _ c hc
        exact digitChar_good d hd
    simp
  · exact encodeField_natRepr _

/-- Number of decimal digits of `n` (zero for `n = 0`). -/
def digitsLen : Nat → Nat
  | 0 => 0
  | n + 1 => digitsLen ((n + 1) / 10) + 1
decreasing_by exact Nat.div_lt_self (by omega) (by omega)

theorem digitsLen_pos_eq (n : Nat) (h : n ≠ 0) :
    digitsLen n = digitsLen (n / 10) + 1 := by
  cases n with
  | zero => exact absurd rfl h
  | succ m => rw [digitsLen]

theorem digitsLen_mono : ∀ n m, m ≤ n → digitsLen m ≤ digitsLen n := by
  intro n
  induction n using Nat.strong_induction_on with
  | _ n ih =>
    intro m hmn
    cases m with
    | zero => simp [digitsLen]
    | succ m' =>
      cases n with
      | zero => omega
      | succ n' =>
        rw [digitsLen_pos_eq (m' + 1) (by omega),
          digitsLen_pos_eq (n' + 1) (by omega)]
        have hlt : (n' + 1) / 10 < n' + 1 := Nat.div_lt_self (by omega) (by omega)
        exact Nat.add_le_add_right
          (ih _ hlt _ (Nat.div_le_div_right hmn)) 1

theorem toDecimalAux_length :
    ∀ f n, n ≤ f → (toDecimalAux f n).length = digitsLen n := by
  intro f
  induction f with
  | zero =>
    intro n h
    interval_cases n
    simp [toDecimalAux, digitsLen]
  | succ f ih =>
    intro n h
    by_cases hn : n = 0
    · simp [toDecimalAux, hn, digitsLen]
    · rw [show toDecimalAux (f + 1) n =
          toDecimalAux f (n / 10) ++ [Nat.digitChar (n % 10)] from by
        simp [toDecimalAux, hn]]
      have hlt : n / 10 < n := Nat.div_lt_self (by omega) (by omega)
      rw [List.length_append, ih (n / 10) (by omega),
        digitsLen_pos_eq n hn]
      simp

theorem natRepr_length_mono (m n : Nat) (h : m ≤ n) :
    (natRepr m).length ≤ (natRepr n).length := by
  unfold natRepr
  by_cases hm : m = 0
  · subst hm
    by_cases hn : n = 0
    · simp [hn]
    · rw [if_pos rfl, if_neg hn, toDecimalAux_length n n le_rfl,
        digitsLen_pos_eq n hn]
      simp
  · have hn : n ≠ 0 := by omega
    rw [if_neg hm, if_neg hn, toDecimalAux_length m m le_rfl,
      toDecimalAux_length n n le_rfl]
    exact digitsLen_mono n m h

theorem intRepr_length_mono (a b : Int) (ha : 0 ≤ a) (hab : a ≤ b) :
    (intRepr a).length ≤ (intRepr b).length := by
  unfold intRepr
  rw [if_neg (by omega), if_neg (by omega)]
  exact natRepr_length_mono _ _ (by omega)

/-! ### Length and monotonicity of the serialized manifest -/

theorem csvWriteAll_cons (r : List (List Char)) (rs : List (List (List Char))) :
    csvWriteAll (r :: rs) = csvLine r ++ csvWriteAll rs := by
  simp [csvWriteAll]

theorem csvLine_length (a b c d : List Char) :
    (csvLine [a, b, c, d]).length =
      (encodeField a).length + (encodeField b).length + (encodeField c).length +
        (encodeField d).length + 4 := by
  simp [csvLine, List.intercalate, List.intersperse]
  omega

theorem csvStart_nonneg (s : Int) (h : 0 ≤ s) : 0 ≤ csvStart s := by
  unfold csvStart findPadding blockSize
  omega

theorem csvStart_mono {s t : Int} (h : s ≤ t) : csvStart s ≤ csvStart t := by
  unfold csvStart findPadding blockSize
  omega

theorem csvRows_len_mono :
    ∀ (L : List (S3Obj × S3Obj)), (∀ p ∈ L, 0 ≤ p.1.size ∧ 0 ≤ p.2.size) →
      ∀ la lb : Int, 0 ≤ la → la ≤ lb →
        (csvWriteAll (csvRows la L)).length ≤
          (csvWriteAll (csvRows lb L)).length := by
  intro L
  induction L with
  | nil => intro _ la lb _ _; simp [csvRows]
  | cons p t ih =>
    intro hp la lb hla hlab
    obtain ⟨h, o⟩ := p
    have hsz1 : 0 ≤ h.size := (hp (h, o) (by simp)).1
    have hsz2 : 0 ≤ o.size := (hp (h, o) (by simp)).2
    rw [show csvRows la ((h, o) :: t) =
        [o.key.data, intRepr (la + h.size), intRepr o.size, o.etag.data] ::
          csvRows (la + h.size + o.size) t from rfl,
      show csvRows lb ((h, o) :: t) =
        [o.key.data, intRepr (lb + h.size), intRepr o.size, o.etag.data] ::
          csvRows (lb + h.size + o.size) t from rfl,
      csvWriteAll_cons, csvWriteAll_cons, List.length_append,
      List.length_append]
    apply Nat.add_le_add
    · rw [csvLine_length, csvLine_length]
      simp only [encodeField_intRepr]
      have hmono := intRepr_length_mono (la + h.size) (lb + h.size)
        (by omega) (by omega)
      omega
    · exact ih (fun q hq => hp q (List.mem_cons_of_mem _ hq)) _ _
        (by omega) (by omega)

theorem createCSVManifest_length_mono (hds objs : List S3Obj)
    (hh : ∀ x ∈ hds, 0 ≤ x.size) (ho : ∀ x ∈ objs, 0 ≤ x.size)
    (s t : Int) (hs : 0 ≤ s) (hst : s ≤ t) :
    (createCSVManifest s hds objs).length ≤
      (createCSVManifest t hds objs).length := by
  unfold createCSVManifest
  apply csvRows_len_mono
  · intro p hp
    obtain ⟨a, b⟩ := p
    have hab := List.of_mem_zip hp
    exact ⟨hh _ hab.1, ho _ hab.2⟩
  · exact csvStart_nonneg s hs
  · exact csvStart_mono hst

/-- The loop stops as soon as its break condition holds. -/
theorem buildManifestLoop_stops (hds objs : List S3Obj) (estimate : Int)
    (hstop : estimate ≤ ((createCSVManifest estimate hds objs).length : Int) +
      findPadding ((createCSVManifest estimate hds objs).length : Int)) :
    buildManifestLoop hds objs estimate = createCSVManifest estimate hds objs := by
  unfold buildManifestLoop
  rw [if_pos hstop]

/-- For entries with non-negative sizes the break condition already holds
at the first check: the estimate seeded from the trial serialization at
offset 0 is never updated, and `_buildManifest` returns the serialization
at that very seed. -/
theorem buildManifest_eq (hds objs : List S3Obj)
    (hh : ∀ x ∈ hds, 0 ≤ x.size) (ho : ∀ x ∈ objs, 0 ≤ x.size) :
    _buildManifest hds objs =
      createCSVManifest ((createCSVManifest 0 hds objs).length : Int) hds objs := by
  unfold _buildManifest
  apply buildManifestLoop_stops
  have hmono := createCSVManifest_length_mono hds objs hh ho 0
    ((createCSVManifest 0 hds objs).length : Int) le_rfl (Int.ofNat_nonneg _)
  have hpad : 0 ≤ findPadding
      ((createCSVManifest ((createCSVManifest 0 hds objs).length : Int)
        hds objs).length : Int) := by
    unfold findPadding blockSize
    omega
  omega

/-! ### An upper bound on the manifest length -/

theorem csvEndAux_ge :
    ∀ (L : List (S3Obj × S3Obj)) (loc : Int),
      (∀ p ∈ L, 0 ≤ p.1.size ∧ 0 ≤ p.2.size) → loc ≤ csvEndAux loc L := by
  intro L
  induction L with
  | nil => intro loc _; simp [csvEndAux]
  | cons p t ih =>
    intro loc hp
    obtain ⟨h, o⟩ := p
    have hsz1 : 0 ≤ h.size := (hp (h, o) (by simp)).1
    have hsz2 : 0 ≤ o.size := (hp (h, o) (by simp)).2
    have := ih (loc + h.size + o.size)
      (fun q hq => hp q (List.mem_cons_of_mem _ hq))
    rw [show csvEndAux loc ((h, o) :: t) =
      csvEndAux (loc + h.size + o.size) t from rfl]
    omega

theorem csvOffsetsAux_le_end :
    ∀ (L : List (S3Obj × S3Obj)) (loc : Int),
      (∀ p ∈ L, 0 ≤ p.1.size ∧ 0 ≤ p.2.size) →
      ∀ off ∈ csvOffsetsAux loc L, off ≤ csvEndAux loc L := by
  intro L
  induction L with
  | nil => intro loc _ off hoff; simp [csvOffsetsAux] at hoff
  | cons p t ih =>
    intro loc hp off hoff
    obtain ⟨h, o⟩ := p
    have hsz2 : 0 ≤ o.size := (hp (h, o) (by simp)).2
    have hrest : ∀ q ∈ t, 0 ≤ q.1.size ∧ 0 ≤ q.2.size :=
      fun q hq => hp q (List.mem_cons_of_mem _ hq)
    rw [show csvOffsetsAux loc ((h, o) :: t) =
      (loc + h.size) :: csvOffsetsAux (loc + h.size + o.size) t from rfl] at hoff
    rw [show csvEndAux loc ((h, o) :: t) =
      csvEndAux (loc + h.size + o.size) t from rfl]
    rcases List.mem_cons.mp hoff with rfl | hoff
    · have := csvEndAux_ge t (loc + h.size + o.size) hrest
      omega
    · exact ih _ hrest off hoff

theorem csvOffsetsAux_nonneg :
    ∀ (L : List (S3Obj × S3Obj)) (loc : Int),
      (∀ p ∈ L, 0 ≤ p.1.size ∧ 0 ≤ p.2.size) → 0 ≤ loc →
      ∀ off ∈ csvOffsetsAux loc L, 0 ≤ off := by
  intro L
  induction L with
  | nil => intro loc _ _ off hoff; simp [csvOffsetsAux] at hoff
  | cons p t ih =>
    intro loc hp hloc off hoff
    obtain ⟨h, o⟩ := p
    have hsz1 : 0 ≤ h.size := (hp (h, o) (by simp)).1
    have hsz2 : 0 ≤ o.size := (hp (h, o) (by simp)).2
    rw [show csvOffsetsAux loc ((h, o) :: t) =
      (loc + h.size) :: csvOffsetsAux (loc + h.size + o.size) t from rfl] at hoff
    rcases List.mem_cons.mp hoff with rfl | hoff
    · omega
    · exact ih _ (fun q hq => hp q (List.mem_cons_of_mem _ hq))
        (by omega) off hoff

theorem csvRows_len_le :
    ∀ (L : List (S3Obj × S3Obj)) (loc : Int) (d : Nat),
      (∀ off ∈ csvOffsetsAux loc L, (intRepr off).length ≤ d) →
      (csvWriteAll (csvRows loc L)).length ≤
        (L.map fun p => maxRowLen p.2 d).sum := by
  intro L
  induction L with
  | nil => intro loc d _; simp [csvRows, csvWriteAll]
  | cons p t ih =>
    intro loc d hoff
    obtain ⟨h, o⟩ := p
    rw [show csvRows loc ((h, o) :: t) =
        [o.key.data, intRepr (loc + h.size), intRepr o.size, o.etag.data] ::
          csvRows (loc + h.size + o.size) t from rfl,
      csvWriteAll_cons, List.length_append]
    have hoff0 : (intRepr (loc + h.size)).length ≤ d := by
      apply hoff
      rw [show csvOffsetsAux loc ((h, o) :: t) =
        (loc + h.size) :: csvOffsetsAux (loc + h.size + o.size) t from rfl]
      simp
    have hrest := ih (loc + h.size + o.size) d (by
      intro off hmem
      apply hoff
      rw [show csvOffsetsAux loc ((h, o) :: t) =
        (loc + h.size) :: csvOffsetsAux (loc + h.size + o.size) t from rfl]
      exact List.mem_cons_of_mem _ hmem)
    rw [List.map_cons, List.sum_cons]
    apply Nat.add_le_add
    · rw [csvLine_length]
      simp only [encodeField_intRepr]
      unfold maxRowLen
      simp only [encodeField_intRepr]
      omega
    · exact hrest

theorem zip_map_snd (f : S3Obj → Nat) :
    ∀ (hds objs : List S3Obj), hds.length = objs.length →
      ((hds.zip objs).map fun p => f p.2) = objs.map f := by
  intro hds
  induction hds with
  | nil =>
    intro objs h
    cases objs with
    | nil => rfl
    | cons b u => simp at h
  | cons a t ih =>
    intro objs h
    cases objs with
    | nil => simp at h
    | cons b u =>
      rw [List.zip_cons_cons, List.map_cons, List.map_cons,
        ih u (by simpa using h)]

/-- The manifest at any non-negative seed is no longer than the maximum
possible manifest for the same entry list, where every offset is given the
digit budget of the final archive location. -/
theorem createCSVManifest_length_le (hds objs : List S3Obj)
    (hlen : hds.length = objs.length)
    (hh : ∀ x ∈ hds, 0 ≤ x.size) (ho : ∀ x ∈ objs, 0 ≤ x.size)
    (s : Int) (hs : 0 ≤ s) :
    (createCSVManifest s hds objs).length ≤
      maxManifestLen objs ((intRepr (csvEnd s hds objs)).length) := by
  have hzip : ∀ p ∈ hds.zip objs, 0 ≤ p.1.size ∧ 0 ≤ p.2.size := by
    intro p hp
    obtain ⟨a, b⟩ := p
    have hab := List.of_mem_zip hp
    exact ⟨hh _ hab.1, ho _ hab.2⟩
  unfold createCSVManifest maxManifestLen csvEnd
  rw [← zip_map_snd _ hds objs hlen]
  apply csvRows_len_le
  intro off hmem
  exact intRepr_length_mono off _
    (csvOffsetsAux_nonneg _ _ hzip (csvStart_nonneg s hs) off hmem)
    (csvOffsetsAux_le_end _ _ hzip off hmem)

/-- C1: For every ordered entry list with per-entry header sizes (entry and
header sizes are non-negative, and the two parallel slices have equal
length as the Go indexing requires), the fixed-point loop of
`_buildManifest` terminates - `buildManifestLoop` is a total function, and
the break condition `lp >= estimate` already holds at the first iteration,
so the loop returns the serialization seeded with the initial estimate and
the estimate value is never changed across iterations (in particular it is
non-decreasing): a larger real manifest never shrinks when re-estimated
with a larger seed (first conjunct, monotonicity of the serialized length
in the seed), and the estimate is bounded above by the maximum possible
manifest size for that fixed entry count, with each text offset bounded by
the digit count of the final archive location (last conjunct). -/
theorem buildManifest_fixed_point_converges (hds objs : List S3Obj)
    (hlen : hds.length = objs.length)
    (hh : ∀ x ∈ hds, 0 ≤ x.size) (ho : ∀ x ∈ objs, 0 ≤ x.size) :
    (∀ s t : Int, 0 ≤ s → s ≤ t →
      (createCSVManifest s hds objs).length ≤
        (createCSVManifest t hds objs).length) ∧
    (((createCSVManifest 0 hds objs).length : Int) ≤
        ((createCSVManifest ((createCSVManifest 0 hds objs).length : Int)
          hds objs).length : Int) +
          findPadding ((createCSVManifest
            ((createCSVManifest 0 hds objs).length : Int) hds objs).length : Int) ∧
      _buildManifest hds objs =
        createCSVManifest ((createCSVManifest 0 hds objs).length : Int)
          hds objs) ∧
    (createCSVManifest 0 hds objs).length ≤
      maxManifestLen objs ((intRepr (csvEnd 0 hds objs)).length) := by
  refine ⟨fun s t hs hst =>
    createCSVManifest_length_mono hds objs hh ho s t hs hst, ⟨?_, ?_⟩, ?_⟩
  · have hmono := createCSVManifest_length_mono hds objs hh ho 0
      ((createCSVManifest 0 hds objs).length : Int) le_rfl (Int.ofNat_nonneg _)
    have hpad : 0 ≤ findPadding
        ((createCSVManifest ((createCSVManifest 0 hds objs).length : Int)
          hds objs).length : Int) := by
      unfold findPadding blockSize
      omega
    omega
  · exact buildManifest_eq hds objs hh ho
  · exact createCSVManifest_length_le hds objs hlen hh ho 0 le_rfl

/-- The concrete entry lists used to instantiate the universally
quantified theorems: two entries whose key/ETag lengths are chosen so that
the trial serialization at offset 0 is exactly 512 bytes long. -/
def exHeaders : List S3Obj := [⟨"", 512, ""⟩, ⟨"", 512, ""⟩]

def exObjects : List S3Obj :=
  [⟨String.mk (List.replicate 200 'a'), 8200, String.mk (List.replicate 50 'b')⟩,
   ⟨String.mk (List.replicate 200 'c'), 0, String.mk (List.replicate 41 'd')⟩]

/-- Witness for `buildManifest_fixed_point_converges` at a concrete entry
list. -/
theorem buildManifest_fixed_point_converges_witness :
    (∀ s t : Int, 0 ≤ s → s ≤ t →
      (createCSVManifest s exHeaders exObjects).length ≤
        (createCSVManifest t exHeaders exObjects).length) ∧
    (((createCSVManifest 0 exHeaders exObjects).length : Int) ≤
        ((createCSVManifest ((createCSVManifest 0 exHeaders exObjects).length : Int)
          exHeaders exObjects).length : Int) +
          findPadding ((createCSVManifest
            ((createCSVManifest 0 exHeaders exObjects).length : Int)
            exHeaders exObjects).length : Int) ∧
      _buildManifest exHeaders exObjects =
        createCSVManifest ((createCSVManifest 0 exHeaders exObjects).length : Int)
          exHeaders exObjects) ∧
    (createCSVManifest 0 exHeaders exObjects).length ≤
      maxManifestLen exObjects
        ((intRepr (csvEnd 0 exHeaders exObjects)).length) :=
  buildManifest_fixed_point_converges exHeaders exObjects rfl
    (by decide) (by decide)

/-! ### Where the recorded offsets point (claims C2, C3) -/

/-- Each row of `csvRows` is exactly the record built from the
corresponding element of `csvOffsetsAux`: the second field is the decimal
rendering of the recorded offset. -/
theorem csvRows_eq_zipWith :
    ∀ (L : List (S3Obj × S3Obj)) (loc : Int),
      csvRows loc L =
        List.zipWith (fun off (p : S3Obj × S3Obj) =>
          [p.2.key.data, intRepr off, intRepr p.2.size, p.2.etag.data])
          (csvOffsetsAux loc L) L := by
  intro L
  induction L with
  | nil => intro loc; rfl
  | cons p t ih =>
    intro loc
    obtain ⟨h, o⟩ := p
    rw [show csvRows loc ((h, o) :: t) =
        [o.key.data, intRepr (loc + h.size), intRepr o.size, o.etag.data] ::
          csvRows (loc + h.size + o.size) t from rfl,
      show csvOffsetsAux loc ((h, o) :: t) =
        (loc + h.size) :: csvOffsetsAux (loc + h.size + o.size) t from rfl,
      List.zipWith_cons_cons, ih]

/-- Each recorded offset is the position at which the entry's header blob
begins plus the header blob's size. -/
theorem csvOffsetsAux_eq_entryStarts :
    ∀ (L : List (S3Obj × S3Obj)) (loc : Int),
      csvOffsetsAux loc L =
        List.zipWith (fun st (p : S3Obj × S3Obj) => st + p.1.size)
          (entryStartsAux loc L) L := by
  intro L
  induction L with
  | nil => intro loc; rfl
  | cons p t ih =>
    intro loc
    obtain ⟨h, o⟩ := p
    rw [show csvOffsetsAux loc ((h, o) :: t) =
        (loc + h.size) :: csvOffsetsAux (loc + h.size + o.size) t from rfl,
      show entryStartsAux loc ((h, o) :: t) =
        loc :: entryStartsAux (loc + h.size + o.size) t from rfl,
      List.zipWith_cons_cons, ih]

/-- C2 (amended): the `absoluteOffset` that `createCSVManifest` records in
each entry's row is the byte position of the first byte of the entry's
data - the position where the entry's header blob begins plus the header
blob's size (the header block immediately precedes the data in the
archive layout) - and not the position of the first byte of the header
block itself. -/
theorem csv_offsets_are_data_starts (s : Int) (hds objs : List S3Obj) :
    createCSVManifest s hds objs =
      csvWriteAll (List.zipWith (fun off (p : S3Obj × S3Obj) =>
        [p.2.key.data, intRepr off, intRepr p.2.size, p.2.etag.data])
        (csvOffsets s hds objs) (hds.zip objs)) ∧
    csvOffsets s hds objs =
      List.zipWith (fun st (p : S3Obj × S3Obj) => st + p.1.size)
        (entryStarts s hds objs) (hds.zip objs) := by
  constructor
  · unfold createCSVManifest csvOffsets
    rw [csvRows_eq_zipWith]
  · unfold csvOffsets entryStarts
    rw [csvOffsetsAux_eq_entryStarts]

/-- A one-entry list with a standard 512-byte header. -/
def exHeaderOne : List S3Obj := [⟨"", 512, ""⟩]

def exObjectOne : List S3Obj := [⟨"a", 0, "e"⟩]

/-- C2 counterexample: with a single entry whose header block is the
standard 512 bytes, serialized at seed 0, the entry's header block starts
at byte 512 but the recorded absoluteOffset is 1024 (the data start), so
the recorded offsets are not the header-block start positions. -/
theorem csv_offset_not_header_start :
    csvOffsets 0 exHeaderOne exObjectOne = [1024] ∧
    entryStarts 0 exHeaderOne exObjectOne = [512] ∧
    csvOffsets 0 exHeaderOne exObjectOne ≠
      entryStarts 0 exHeaderOne exObjectOne := by
  refine ⟨by decide, by decide, by decide⟩

/-- C3 (amended): the converged state is reproduced by re-seeding with the
converged estimate itself (the value `_buildManifest` stopped at, namely
the length of the trial serialization at offset 0), and more generally by
any seed that induces the same block-aligned data start; re-seeding with
the block-padded manifest length is not guaranteed to do so (see the
counterexample), because the padded length can land in a later 512-byte
block than the converged estimate and shift every offset. -/
theorem reseed_converged_estimate_idempotent (hds objs : List S3Obj)
    (hh : ∀ x ∈ hds, 0 ≤ x.size) (ho : ∀ x ∈ objs, 0 ≤ x.size) :
    createCSVManifest ((createCSVManifest 0 hds objs).length : Int) hds objs =
      _buildManifest hds objs ∧
    ∀ s : Int,
      csvStart s = csvStart ((createCSVManifest 0 hds objs).length : Int) →
      createCSVManifest s hds objs = _buildManifest hds objs := by
  have heq := buildManifest_eq hds objs hh ho
  refine ⟨heq.symm, fun s hs => ?_⟩
  rw [heq]
  exact congrArg (fun st => csvWriteAll (csvRows st (hds.zip objs))) hs

/-- Witness for `reseed_converged_estimate_idempotent` at the concrete
two-entry list. -/
theorem reseed_converged_estimate_idempotent_witness :
    createCSVManifest ((createCSVManifest 0 exHeaders exObjects).length : Int)
        exHeaders exObjects = _buildManifest exHeaders exObjects ∧
    ∀ s : Int,
      csvStart s =
        csvStart ((createCSVManifest 0 exHeaders exObjects).length : Int) →
      createCSVManifest s exHeaders exObjects =
        _buildManifest exHeaders exObjects :=
  reseed_converged_estimate_idempotent exHeaders exObjects
    (by decide) (by decide)

/-- C3 counterexample: for the two-entry list `exObjects` the loop
converges at estimate 512 and returns a 513-byte manifest whose
block-padded length is 1024; re-seeding `createCSVManifest` with 1024
moves the block-aligned data start from 1024 to 1536 and changes every
recorded offset, so the padded-length re-seed does not reproduce the
manifest `_buildManifest` returned. -/
theorem reseed_padded_length_changes_manifest :
    createCSVManifest
        (((_buildManifest exHeaders exObjects).length : Int) +
          findPadding ((_buildManifest exHeaders exObjects).length : Int))
        exHeaders exObjects ≠ _buildManifest exHeaders exObjects := by
  have heq := buildManifest_eq exHeaders exObjects (by decide) (by decide)
  rw [heq]
  decide

/-! ### BlockAligner (claim C5) -/

/-- C5: for every non-negative offset, `findPadding offset` is the smallest
non-negative `n` such that `offset + n` is a multiple of 512; consequently
it lies in `[0, 511]`, `(offset + findPadding offset) % 512 = 0`, and
`findPadding 0 = 0`, `findPadding 1 = 511`, `findPadding 512 = 0`. -/
theorem findPadding_correct (o : Int) (h : 0 ≤ o) :
    0 ≤ findPadding o ∧ findPadding o ≤ 511 ∧
    (o + findPadding o) % 512 = 0 ∧
    (∀ m : Int, 0 ≤ m → (o + m) % 512 = 0 → findPadding o ≤ m) ∧
    findPadding 0 = 0 ∧ findPadding 1 = 511 ∧ findPadding 512 = 0 := by
  unfold findPadding blockSize
  refine ⟨by omega, by omega, by omega, fun m hm hmod => by omega,
    by decide, by decide, by decide⟩

/-- Witness for `findPadding_correct` at offset 1. -/
theorem findPadding_correct_witness :
    0 ≤ findPadding 1 ∧ findPadding 1 ≤ 511 ∧
    ((1 : Int) + findPadding 1) % 512 = 0 ∧
    (∀ m : Int, 0 ≤ m → ((1 : Int) + m) % 512 = 0 → findPadding 1 ≤ m) ∧
    findPadding 0 = 0 ∧ findPadding 1 = 511 ∧ findPadding 512 = 0 :=
  findPadding_correct 1 (by decide)

/-! ### PartRangeSolver (claims C4, C8)

src/utils.go:55-92.  `int64` division in Go truncates toward zero
(`Int.tdiv`), and dividing by zero is a runtime panic; `none` models that
panic.  The counters only ever take the values 10000, 9999, ..., 0
(decrement loop) and 1, 2, ... (increment loop). -/

def partsLimit : Int := 10000

def partSizeMin : Int := 1024 * 1024 * 5

def partSizeMax : Int := 1024 * 1024 * 1024 * 5

/-- src/utils.go:71-78, the `nPartsMax` decrement loop.  Each iteration
computes `curSize / nPartsMax` first; when the counter has been
decremented to zero that division panics, modelled by `none` (zero is the
only non-positive value the counter, started at 10000, can reach). -/
def maxPartsLoop (curSize nPartsMax : Int) : Option Int :=
  if nPartsMax ≤ 0 then none
  else if curSize.tdiv nPartsMax < partSizeMin then
    maxPartsLoop curSize (nPartsMax - 1)
  else some nPartsMax
termination_by nPartsMax.toNat
decreasing_by omega

/-- src/utils.go:80-89, the `nPartsMin` increment loop.  The counter
starts at 1 and increments, so it is kept as a `Nat`; the loop never
divides by zero and always terminates (once `nPartsMin` exceeds
`curSize / partSizeMax` the division result is at most `partSizeMax`). -/
def minPartsLoop (curSize : Int) (nPartsMin : Nat) : Int :=
  if curSize.tdiv nPartsMin > partSizeMax then
    minPartsLoop curSize (nPartsMin + 1)
  else nPartsMin
termination_by curSize.toNat + 1 - nPartsMin
decreasing_by
  rename_i hgt
  have hn : (nPartsMin : Int) ≠ 0 := by
    intro h0
    rw [h0, Int.tdiv_zero] at hgt
    unfold partSizeMax at hgt
    omega
  have hc : 0 ≤ curSize := by
    by_contra hneg
    have h1 : 0 ≤ (-curSize).tdiv (nPartsMin : Int) :=
      Int.tdiv_nonneg (by omega) (by omega)
    have h2 : (-curSize).tdiv (nPartsMin : Int) = -(curSize.tdiv nPartsMin) :=
      Int.neg_tdiv _ _
    unfold partSizeMax at hgt
    omega
  have hpos : (0 : Int) < (nPartsMin : Int) := by omega
  rw [Int.tdiv_eq_ediv hc (by omega)] at hgt
  have hmul := (Int.le_ediv_iff_mul_le hpos).mp
    (by omega : partSizeMax + 1 ≤ curSize / (nPartsMin : Int))
  unfold partSizeMax at hmul
  have hlt : (nPartsMin : Int) < curSize := by nlinarith [hpos, hmul]
  omega

/-- src/utils.go:55-92: run the decrement loop from `partsLimit`, the
increment loop from 1, and return `(nPartsMin, nPartsMax, nPartsMax / 2)`;
the whole call panics (`none`) when the decrement loop does. -/
def findMinMaxPartRange (objectSize : Int) : Option (Int × Int × Int) :=
  match maxPartsLoop objectSize partsLimit with
  | none => none
  | some nPartsMax =>
    some (minPartsLoop objectSize 1, nPartsMax, nPartsMax.tdiv 2)

/-- For any object size smaller than the 5 MiB minimum part size
(including every negative size), the decrement loop never meets its exit
condition and runs the counter down to zero, where the division panics. -/
theorem maxPartsLoop_small (S : Int) (hS : S < partSizeMin) :
    ∀ (k : Nat) (n : Int), n ≤ k → maxPartsLoop S n = none := by
  intro k
  induction k with
  | zero =>
    intro n hn
    unfold maxPartsLoop
    rw [if_pos (by exact_mod_cast hn)]
  | succ k ih =>
    intro n hn
    by_cases hpos : n ≤ 0
    · unfold maxPartsLoop
      rw [if_pos hpos]
    · have hdiv : S.tdiv n < partSizeMin := by
        by_cases hc : 0 ≤ S
        · have h1 : S.tdiv n ≤ S := by
            rw [Int.tdiv_eq_ediv hc (by omega)]
            exact Int.ediv_le_self n hc
          omega
        · have h1 : 0 ≤ (-S).tdiv n := Int.tdiv_nonneg (by omega) (by omega)
          have h2 : (-S).tdiv n = -(S.tdiv n) := Int.neg_tdiv _ _
          unfold partSizeMin
          omega
      unfold maxPartsLoop
      rw [if_neg hpos, if_pos hdiv]
      exact ih (n - 1) (by omega)

theorem findMinMaxPartRange_small (S : Int) (hS : S < partSizeMin) :
    findMinMaxPartRange S = none := by
  unfold findMinMaxPartRange
  rw [maxPartsLoop_small S hS 10000 partsLimit (by norm_num [partsLimit])]

/-- C4: evaluating the code at the failing input: for the positive object
size 1 (any size below 5 MiB behaves the same), `findMinMaxPartRange` does
not terminate at part count 1 as the claim requires - the decrement loop
drives `nPartsMax` from 10000 down to 0 and the next iteration's
`curSize / nPartsMax` is a Go integer-divide-by-zero panic, modelled as
`none`. -/
theorem findMinMaxPartRange_small_size_panics : findMinMaxPartRange 1 = none :=
  findMinMaxPartRange_small 1 (by unfold partSizeMin; omega)

/-- C8: evaluating the code at the failing input: for the negative object
size -1, `findMinMaxPartRange` does not report a usage/configuration
error - every division `(-1) / n` truncates to a value below the minimum
part size, so the decrement loop again reaches 0 and the function dies
with an integer-divide-by-zero panic, modelled as `none`. -/
theorem findMinMaxPartRange_negative_panics :
    findMinMaxPartRange (-1) = none :=
  findMinMaxPartRange_small (-1) (by unfold partSizeMin; omega)

/-! ### ManifestBuilder wrapper (claim C6) -/

/-- Modelled from the spec: `pad` is a repository constant defined outside
src/ and written by `buildFirstPart` before the manifest header
(`buf.Write(pad)`); per the spec's block model it is one 512-byte zero
block. -/
def pad : List Char := List.replicate 512 (Char.ofNat 0)

/-- src/unnamed/part_000:78-107.  The external GNU tar header encoder
(`tar.NewWriter`, `tw.WriteHeader`, `tw.Flush`) is out of scope per the
spec (§2, HeaderSynthesizer: `synthesize(name, size, metadata) ->
512-byte block`); it enters as the capability `synthesize`, applied to the
manifest body length (`hdr.Size = len(csvData)`, name `manifest.csv`).
After the header and body, the code appends `findPadding(len(csvData))`
zero bytes, replaced by a full `blockSize` block when that padding is
zero. -/
def buildFirstPart (synthesize : Int → List Char) (csvData : List Char) :
    List Char :=
  pad ++ synthesize (csvData.length : Int) ++ csvData ++
    List.replicate
      (if findPadding (csvData.length : Int) = 0 then blockSize
        else findPadding (csvData.length : Int)).toNat
      (Char.ofNat 0)

/-- C6: for every manifest body, the trailing pad `buildFirstPart` appends
is `findPadding (len csvData)` bytes, except that a full 512-byte block is
used when that value is zero; hence it is never zero, lies in `[1, 512]`,
the manifest entry's total on-disk length (header block + body + trailing
pad) is a multiple of 512, and so is the whole emitted buffer. -/
theorem buildFirstPart_trailing_pad (synthesize : Int → List Char)
    (csvData : List Char)
    (hsyn : ∀ sz : Int, (synthesize sz).length = 512) :
    (1 : Int) ≤ (if findPadding (csvData.length : Int) = 0 then blockSize
        else findPadding (csvData.length : Int)) ∧
    (if findPadding (csvData.length : Int) = 0 then blockSize
        else findPadding (csvData.length : Int)) ≤ 512 ∧
    ((512 : Int) + (csvData.length : Int) +
      (if findPadding (csvData.length : Int) = 0 then blockSize
        else findPadding (csvData.length : Int))) % 512 = 0 ∧
    ((buildFirstPart synthesize csvData).length : Int) % 512 = 0 := by
  have hlen : (buildFirstPart synthesize csvData).length =
      512 + 512 + csvData.length +
        (if findPadding (csvData.length : Int) = 0 then blockSize
          else findPadding (csvData.length : Int)).toNat := by
    unfold buildFirstPart pad
    rw [List.length_append, List.length_append, List.length_append,
      List.length_replicate, List.length_replicate, hsyn]
  rw [hlen]
  unfold findPadding blockSize
  split <;> [skip; skip] <;> refine ⟨by omega, by omega, by omega, by omega⟩

/-- Witness for `buildFirstPart_trailing_pad` with an all-zero 512-byte
header encoder and a one-byte manifest body. -/
theorem buildFirstPart_trailing_pad_witness :
    (1 : Int) ≤ (if findPadding (([ 'x' ] : List Char).length : Int) = 0
        then blockSize else findPadding (([ 'x' ] : List Char).length : Int)) ∧
    (if findPadding (([ 'x' ] : List Char).length : Int) = 0 then blockSize
        else findPadding (([ 'x' ] : List Char).length : Int)) ≤ 512 ∧
    ((512 : Int) + (([ 'x' ] : List Char).length : Int) +
      (if findPadding (([ 'x' ] : List Char).length : Int) = 0 then blockSize
        else findPadding (([ 'x' ] : List Char).length : Int))) % 512 = 0 ∧
    ((buildFirstPart (fun _ => List.replicate 512 (Char.ofNat 0))
        [ 'x' ]).length : Int) % 512 = 0 :=
  buildFirstPart_trailing_pad (fun _ => List.replicate 512 (Char.ofNat 0))
    [ 'x' ] (fun sz => by simp)

/-! ### Batched deletion (claim C9)

src/utils.go:307-348.  The store client enters as a capability mapping the
batch's key list to the `DeleteObjects` response: a transport error
(`err != nil`, returned to the caller) and the per-object failure list
`response.Errors`.  `DeleteOutcome.fatal` models `log.Fatal`, which prints
its fixed message and terminates the process: nothing is returned to the
caller and no further batch is attempted. -/

structure DeleteObjectsResponse where
  transportError : Option String
  errors : List String

inductive DeleteOutcome where
  | ok : DeleteOutcome
  | err : String → DeleteOutcome
  | fatal : String → DeleteOutcome
deriving DecidableEq

/-- src/utils.go:307-331: one batch.  `if err != nil return err`; then
`if len(response.Errors) > 0 { log.Fatal("Error deleting objects") }`. -/
def _deleteObjectList (client : List String → DeleteObjectsResponse)
    (objectList : List String) : DeleteOutcome :=
  match (client objectList).transportError with
  | some e => .err e
  | none =>
    if (client objectList).errors.length > 0 then
      .fatal "Error deleting objects"
    else .ok

/-- src/utils.go:333-348, the batching loop (`batch = 1000`,
`part := objectList[start:end]`), instrumented: the second component
records the batches actually issued to the store, in order.  The loop is
driven by a fuel argument bounded by the list length (each batch removes
at least one element, so the zero-fuel branch is unreachable from
`deleteObjectListTrace`). -/
def deleteBatchesAux (client : List String → DeleteObjectsResponse) :
    Nat → List String → DeleteOutcome × List (List String)
  | _, [] => (.ok, [])
  | 0, _ => (.ok, [])
  | fuel + 1, l =>
    match _deleteObjectList client (l.take 1000) with
    | .ok =>
      ((deleteBatchesAux client fuel (l.drop 1000)).1,
        l.take 1000 :: (deleteBatchesAux client fuel (l.drop 1000)).2)
    | e => (e, [l.take 1000])

def deleteObjectListTrace (client : List String → DeleteObjectsResponse)
    (objectList : List String) : DeleteOutcome × List (List String) :=
  deleteBatchesAux client objectList.length objectList

/-- src/utils.go:333-348: the outcome the caller observes. -/
def deleteObjectList (client : List String → DeleteObjectsResponse)
    (objectList : List String) : DeleteOutcome :=
  (deleteObjectListTrace client objectList).1

/-- The sequence of 1000-key batches the loop slices from the list. -/
def batchesAux : Nat → List String → List (List String)
  | _, [] => []
  | 0, _ => []
  | fuel + 1, l => l.take 1000 :: batchesAux fuel (l.drop 1000)

def batches (objectList : List String) : List (List String) :=
  batchesAux objectList.length objectList

theorem deleteBatchesAux_nil (client : List String → DeleteObjectsResponse)
    (f : Nat) : deleteBatchesAux client f [] = (.ok, []) := by
  cases f <;> rfl

theorem batchesAux_nil (f : Nat) : batchesAux f [] = [] := by
  cases f <;> rfl

theorem deleteBatchesAux_cons (client : List String → DeleteObjectsResponse)
    (f : Nat) (x : String) (xs : List String) :
    deleteBatchesAux client (f + 1) (x :: xs) =
      match _deleteObjectList client ((x :: xs).take 1000) with
      | .ok => ((deleteBatchesAux client f ((x :: xs).drop 1000)).1,
          (x :: xs).take 1000 ::
            (deleteBatchesAux client f ((x :: xs).drop 1000)).2)
      | e => (e, [(x :: xs).take 1000]) := rfl

theorem batchesAux_cons (f : Nat) (x : String) (xs : List String) :
    batchesAux (f + 1) (x :: xs) =
      (x :: xs).take 1000 :: batchesAux f ((x :: xs).drop 1000) := rfl

/-- The fuel argument is irrelevant as soon as it bounds the list length. -/
theorem deleteBatchesAux_fuel (client : List String → DeleteObjectsResponse) :
    ∀ (f g : Nat) (l : List String), l.length ≤ f → l.length ≤ g →
      deleteBatchesAux client f l = deleteBatchesAux client g l := by
  intro f
  induction f with
  | zero =>
    intro g l hf hg
    have hnil : l = [] := List.eq_nil_of_length_eq_zero (by omega)
    subst hnil
    rw [deleteBatchesAux_nil, deleteBatchesAux_nil]
  | succ f ih =>
    intro g l hf hg
    cases l with
    | nil => rw [deleteBatchesAux_nil, deleteBatchesAux_nil]
    | cons x xs =>
      cases g with
      | zero => simp at hg
      | succ g =>
        rw [deleteBatchesAux_cons, deleteBatchesAux_cons]
        have hd1 : ((x :: xs).drop 1000).length ≤ f := by
          rw [List.length_drop]
          simp only [List.length_cons] at hf ⊢
          omega
        have hd2 : ((x :: xs).drop 1000).length ≤ g := by
          rw [List.length_drop]
          simp only [List.length_cons] at hg ⊢
          omega
        rw [ih g ((x :: xs).drop 1000) hd1 hd2]

theorem batchesAux_fuel :
    ∀ (f g : Nat) (l : List String), l.length ≤ f → l.length ≤ g →
      batchesAux f l = batchesAux g l := by
  intro f
  induction f with
  | zero =>
    intro g l hf hg
    have hnil : l = [] := List.eq_nil_of_length_eq_zero (by omega)
    subst hnil
    rw [batchesAux_nil, batchesAux_nil]
  | succ f ih =>
    intro g l hf hg
    cases l with
    | nil => rw [batchesAux_nil, batchesAux_nil]
    | cons x xs =>
      cases g with
      | zero => simp at hg
      | succ g =>
        rw [batchesAux_cons, batchesAux_cons]
        have hd1 : ((x :: xs).drop 1000).length ≤ f := by
          rw [List.length_drop]
          simp only [List.length_cons] at hf ⊢
          omega
        have hd2 : ((x :: xs).drop 1000).length ≤ g := by
          rw [List.length_drop]
          simp only [List.length_cons] at hg ⊢
          omega
        rw [ih g ((x :: xs).drop 1000) hd1 hd2]

theorem batches_cons (l : List String) (hl : l ≠ []) :
    batches l = l.take 1000 :: batches (l.drop 1000) := by
  cases l with
  | nil => exact absurd rfl hl
  | cons x xs =>
    show batchesAux (xs.length + 1) (x :: xs) = _
    rw [batchesAux_cons]
    unfold batches
    rw [batchesAux_fuel xs.length ((x :: xs).drop 1000).length
      ((x :: xs).drop 1000) (by rw [List.length_drop]; simp only [List.length_cons]; omega) le_rfl]

theorem deleteTrace_cons (client : List String → DeleteObjectsResponse)
    (l : List String) (hl : l ≠ []) :
    deleteObjectListTrace client l =
      match _deleteObjectList client (l.take 1000) with
      | .ok => ((deleteObjectListTrace client (l.drop 1000)).1,
          l.take 1000 :: (deleteObjectListTrace client (l.drop 1000)).2)
      | e => (e, [l.take 1000]) := by
  cases l with
  | nil => exact absurd rfl hl
  | cons x xs =>
    show deleteBatchesAux client (xs.length + 1) (x :: xs) = _
    rw [deleteBatchesAux_cons]
    unfold deleteObjectListTrace
    rw [deleteBatchesAux_fuel client xs.length ((x :: xs).drop 1000).length
      ((x :: xs).drop 1000) (by rw [List.length_drop]; simp only [List.length_cons]; omega) le_rfl]

/-- C9 (amended): whenever the first `i` batches succeed and the store
reports per-object failures for batch `i` (no transport error, non-empty
`response.Errors`), `deleteObjectList` terminates the process through
`log.Fatal` with the fixed message "Error deleting objects": the failing
keys are not identified, no error value reaches the caller, and no batch
after batch `i` is issued (the instrumented trace is exactly the first
`i + 1` batches). -/
theorem deleteObjectList_partial_failure
    (client : List String → DeleteObjectsResponse) :
    ∀ (i : Nat) (l : List String),
      i < (batches l).length →
      (∀ j, j < i → _deleteObjectList client ((batches l).getD j []) = .ok) →
      (client ((batches l).getD i [])).transportError = none →
      (client ((batches l).getD i [])).errors ≠ [] →
      deleteObjectListTrace client l =
        (.fatal "Error deleting objects", (batches l).take (i + 1)) := by
  intro i
  induction i with
  | zero =>
    intro l hi hok htr herr
    have hl : l ≠ [] := by
      intro h
      subst h
      simp [batches, batchesAux] at hi
    rw [batches_cons l hl] at htr herr
    simp only [List.getD_cons_zero] at htr herr
    have hfatal : _deleteObjectList client (l.take 1000) =
        .fatal "Error deleting objects" := by
      unfold _deleteObjectList
      rw [htr, if_pos (by
        have := List.length_pos.mpr herr
        omega)]
    rw [deleteTrace_cons client l hl, hfatal, batches_cons l hl]
    simp
  | succ i ih =>
    intro l hi hok htr herr
    have hl : l ≠ [] := by
      intro h
      subst h
      simp [batches, batchesAux] at hi
    rw [batches_cons l hl] at hi hok htr herr
    have h0 : _deleteObjectList client (l.take 1000) = .ok := by
      have := hok 0 (by omega)
      simpa using this
    have hrec := ih (l.drop 1000)
      (by simpa using hi)
      (fun j hj => by
        have := hok (j + 1) (by omega)
        simpa using this)
      (by simpa using htr)
      (by simpa using herr)
    rw [deleteTrace_cons client l hl, h0, batches_cons l hl]
    rw [show (match DeleteOutcome.ok with
      | .ok => ((deleteObjectListTrace client (l.drop 1000)).1,
          l.take 1000 :: (deleteObjectListTrace client (l.drop 1000)).2)
      | e => (e, [l.take 1000])) =
        ((deleteObjectListTrace client (l.drop 1000)).1,
          l.take 1000 :: (deleteObjectListTrace client (l.drop 1000)).2)
      from rfl]
    rw [hrec]
    simp [List.take_succ_cons]

/-- C9 counterexample: with a single key `"k1"` whose deletion the store
reports as failed (no transport error, `response.Errors = ["k1"]`), the
outcome is the process-terminating `log.Fatal` with the fixed text
"Error deleting objects" - a message that names no key - and in
particular it is not an error value identifying `"k1"` returned to the
caller. -/
theorem deleteObjectList_fatal_is_generic :
    deleteObjectListTrace (fun ks => ⟨none, ks⟩) ["k1"] =
      (.fatal "Error deleting objects", [["k1"]]) ∧
    deleteObjectList (fun ks => ⟨none, ks⟩) ["k1"] ≠ .err "k1" := by
  refine ⟨by decide, by decide⟩

/-- Concrete store and key list for the witness: 1001 keys split into the
batches `[replicate 1000 "a", ["z"]]`; the store fails exactly on key
`"z"`, i.e. on the second batch. -/
def exClient : List String → DeleteObjectsResponse :=
  fun ks => if ks.contains "z" then ⟨none, ["z"]⟩ else ⟨none, []⟩

def exKeys : List String := List.replicate 1000 "a" ++ ["z"]

/-- Witness for `deleteObjectList_partial_failure`: the store fails on the
second batch of two; the run ends in the generic fatal and issues exactly
the two batches. -/
theorem deleteObjectList_partial_failure_witness :
    deleteObjectListTrace exClient exKeys =
      (.fatal "Error deleting objects", (batches exKeys).take 2) :=
  deleteObjectList_partial_failure exClient 1 exKeys
    (by decide)
    (by decide)
    (by decide)
    (by decide)

/-! ### Object-range requests (claim C10)

src/utils.go:250-267.  The functions build a `GetObjectInput`; the store
call itself (`svc.GetObject`) is a thin network operation out of scope.
By the store contract (spec §6), a request without a `Range` header
returns the entire object. -/

structure GetObjectInput where
  bucket : String
  key : String
  range : Option (List Char)
deriving DecidableEq

/-- src/utils.go:253-267: the Range header is set only when `end != 0`,
to `fmt.Sprintf("bytes=%d-%d", start, end)`. -/
def getObjectRange (bucket key : String) (start endByte : Int) :
    GetObjectInput :=
  { bucket := bucket, key := key,
    range := if endByte ≠ 0 then
        some ("bytes=".data ++ intRepr start ++ "-".data ++ intRepr endByte)
      else none }

/-- src/utils.go:250-252: `getObject` delegates with `start = end = 0`. -/
def getObject (bucket key : String) : GetObjectInput :=
  getObjectRange bucket key 0 0

/-- C10: with `end = 0` the request carries no byte-range restriction (so
the store returns the entire object) and the `start` parameter is
ignored; `getObject` is exactly `getObjectRange` with `start = end = 0`;
with `end ≠ 0` the request carries `bytes=start-end`; and every request
that does carry an explicit range was built with a non-zero last byte
index. -/
theorem getObjectRange_end_zero_spec :
    (∀ (b k : String) (s : Int), getObjectRange b k s 0 = ⟨b, k, none⟩) ∧
    (∀ b k : String, getObject b k = getObjectRange b k 0 0) ∧
    (∀ (b k : String) (s e : Int), e ≠ 0 →
      getObjectRange b k s e =
        ⟨b, k, some ("bytes=".data ++ intRepr s ++ "-".data ++ intRepr e)⟩) ∧
    (∀ (b k : String) (s e : Int) (r : List Char),
      (getObjectRange b k s e).range = some r → e ≠ 0) := by
  refine ⟨fun b k s => by simp [getObjectRange],
    fun b k => rfl,
    fun b k s e he => by simp [getObjectRange, he],
    fun b k s e r hr he => ?_⟩
  subst he
  simp [getObjectRange] at hr

/-- Witness for `getObjectRange_end_zero_spec` at concrete arguments. -/
theorem getObjectRange_end_zero_spec_witness :
    getObjectRange "b" "k" 7 0 = ⟨"b", "k", none⟩ ∧
    getObject "b" "k" = getObjectRange "b" "k" 0 0 ∧
    getObjectRange "b" "k" 1 5 =
      ⟨"b", "k", some ("bytes=".data ++ intRepr 1 ++ "-".data ++ intRepr 5)⟩ ∧
    (5 : Int) ≠ 0 :=
  ⟨getObjectRange_end_zero_spec.1 "b" "k" 7,
    getObjectRange_end_zero_spec.2.1 "b" "k",
    getObjectRange_end_zero_spec.2.2.1 "b" "k" 1 5 (by decide),
    getObjectRange_end_zero_spec.2.2.2 "b" "k" 1 5
      ("bytes=".data ++ intRepr 1 ++ "-".data ++ intRepr 5) (by decide)⟩

end S3Tar
